import Mathlib

/-!
Shallow embedding of `release-notes/release-notes-preparator.ts` from the
podman-desktop `tool-release-notes` repository, together with proofs about
the properties its specification states.

Strings manipulated by regular expressions or character-wise operations are
modelled as `List Char`.  JavaScript objects used as string-keyed maps are
modelled as insertion-ordered association lists (`List (String × α)`), with
assignment to an existing key updating in place and assignment to a fresh key
appending at the end, exactly as JS object key ordering behaves.
ISO-8601 timestamp strings compared through `new Date(..)` are modelled as
`Nat` values (chronological order of ISO timestamps is the numeric order of
the modelled values; a missing timestamp makes every `>` comparison false,
like a NaN date).
-/

namespace ReleaseNotes

/-- JavaScript `\s` character class, restricted to its ASCII members
(space, tab, line feed, vertical tab, form feed, carriage return). -/
def isWsChar (c : Char) : Bool :=
  c == ' ' || c == '\t' || c == '\n' || c == '\x0b' || c == '\x0c' || c == '\r'

/-- JavaScript `\d` character class. -/
def isDigitChar (c : Char) : Bool :=
  '0' ≤ c && c ≤ '9'

/-- ASCII lower-casing, modelling the case folding done by the `/i` regex
flag and by `toLowerCase()` on the ASCII payloads this tool handles. -/
def lc (c : Char) : Char :=
  if 'A' ≤ c && c ≤ 'Z' then Char.ofNat (c.toNat + 32) else c

/-- Lower-case a character list. -/
def lcs (l : List Char) : List Char := l.map lc

/-- Case-insensitive "starts with": does `s` begin with pattern `p`,
comparing characters after ASCII case folding? -/
def ciStartsWith : List Char → List Char → Bool
  | [], _ => true
  | _ :: _, [] => false
  | p :: ps, c :: cs => lc p == lc c && ciStartsWith ps cs

/-- Case-sensitive "starts with", modelling `String.prototype.startsWith`. -/
def csStartsWith : List Char → List Char → Bool
  | [], _ => true
  | _ :: _, [] => false
  | p :: ps, c :: cs => p == c && csStartsWith ps cs

/-- Does `s` contain pattern `p` (case-insensitively) at some position?
Models a `.match(/pat/i)` test for a literal pattern. -/
def ciContainsSub (p : List Char) : List Char → Bool
  | [] => ciStartsWith p []
  | c :: cs => ciStartsWith p (c :: cs) || ciContainsSub p cs

/-! ### Data model (octokit issue shape, restricted to the fields used) -/

/-- The `user` object of an octokit issue (fields the tool reads). -/
structure User where
  login : String
  html_url : String
  utype : String
  deriving Repr, DecidableEq

/-- An octokit issue record, restricted to the fields the tool reads.
`pull_request : Bool` models the truthiness of the `pull_request` marker. -/
structure Issue where
  title : List Char
  user : Option User
  number : Nat
  html_url : String
  created_at : Option Nat
  body : Option (List Char)
  pull_request : Bool
  deriving Repr, DecidableEq

structure Author where
  username : String
  link : String
  deriving Repr, DecidableEq

structure PRInfo where
  title : List Char
  author : Author
  number : Nat
  link : String
  created_at : Option Nat
  deriving Repr, DecidableEq

structure PRCategory where
  category : String
  prs : List PRInfo
  deriving Repr, DecidableEq

structure HighlightedPR where
  title : String
  shortDesc : String
  longDesc : String
  deriving Repr, DecidableEq

/-- An entry of the `listContributors` response (fields the tool reads). -/
structure Contributor where
  login : Option String
  contributions : Nat
  deriving Repr, DecidableEq

/-- A milestone record (fields the tool reads). -/
structure MilestoneRec where
  title : String
  number : Nat
  deriving Repr, DecidableEq

/-! ### Association-list helpers for JS objects used as maps -/

/-- JS truthiness of a possibly-absent string (`undefined` and `""` are falsy). -/
def isTruthyStr : Option String → Bool
  | none => false
  | some s => s ≠ ""

/-- `obj[k] = v` on a JS object: update in place if the key exists,
otherwise append the new key at the end. -/
def setKey {α : Type} : List (String × α) → String → α → List (String × α)
  | [], k, v => [(k, v)]
  | (k', v') :: rest, k, v =>
    if k' = k then (k', v) :: rest else (k', v') :: setKey rest k v

/-- `obj[k]` with an `?? 0` / `if (!obj[k]) obj[k] = 0` default. -/
def lookupD {α : Type} (d : α) (m : List (String × α)) (k : String) : α :=
  match m.find? (fun kv => kv.1 = k) with
  | some kv => kv.2
  | none => d

/-- The combined `if (!result[k]) result[k] = 0; result[k]++;` step. -/
def bump : List (String × Nat) → String → List (String × Nat)
  | [], k => [(k, 1)]
  | (k', v) :: rest, k =>
    if k' = k then (k', v + 1) :: rest else (k', v) :: bump rest k

/-- Sum of the values stored in a counts object. -/
def sumVals (m : List (String × Nat)) : Nat :=
  (m.map (fun kv => kv.2)).sum

/-! ### `getMilestonePRs` -/

/-- The login read by `issue.user?.login`, with `""` standing for absent. -/
def authorLogin (issue : Issue) : String :=
  match issue.user with
  | some u => u.login
  | none => ""

/-- Truthiness of `issue.user?.login`. -/
def hasTruthyAuthor (issue : Issue) : Bool :=
  match issue.user with
  | some u => u.login ≠ ""
  | none => false

/-- Loop body/accumulator recursion of `getMilestonePRs`. -/
def getMilestonePRsGo (result : List (String × Nat)) : List Issue → List (String × Nat)
  | [] => result
  | issue :: rest =>
    getMilestonePRsGo
      (if issue.pull_request && hasTruthyAuthor issue then bump result (authorLogin issue)
       else result)
      rest

/-- `ReleaseNotesPreparator.getMilestonePRs`: count, per author login, the
pull-request entries of the list (entries without a pull-request marker or
without a truthy author login are skipped). -/
def getMilestonePRs (prs : List Issue) : List (String × Nat) :=
  getMilestonePRsGo [] prs

/-! ### `isNewContributor` -/

/-- `ReleaseNotesPreparator.isNewContributor`: the user's lifetime
contribution count (default 0) equals the milestone count (default 0)
and is positive. -/
def isNewContributor (username : String) (contributorsMap milestoneCommits : List (String × Nat)) :
    Bool :=
  let totalCommits := lookupD 0 contributorsMap username
  let milestoneCount := lookupD 0 milestoneCommits username
  totalCommits == milestoneCount && totalCommits > 0

/-! ### `getFirstTimeContributors` -/

/-- The reduce building `contributorsMap` from the `listContributors` data:
`if (contributor.login) acc[contributor.login] = contributor.contributions`. -/
def contributorsMapOf (contributors : List Contributor) : List (String × Nat) :=
  contributors.foldl
    (fun acc c =>
      if isTruthyStr c.login then setKey acc (c.login.getD "") c.contributions else acc)
    []

/-- `new Date(a) > new Date(b)` on the modelled timestamps; any missing
operand yields an invalid date, whose comparisons are all false. -/
def dateGt : Option Nat → Option Nat → Bool
  | some a, some b => a > b
  | _, _ => false

/-- The `PRInfo` record built inside the `getFirstTimeContributors` loop. -/
def prInfoOf (pr : Issue) (u : User) : PRInfo :=
  { title := pr.title
    author := { username := u.login, link := u.html_url }
    number := pr.number
    link := pr.html_url
    created_at := pr.created_at }

/-- The per-PR loop of `getFirstTimeContributors`, threading the
`firstTimeContributorsMap` object. -/
def getFirstTimeContributorsGo (cm mc : List (String × Nat))
    (fm : List (String × PRInfo)) : List Issue → List (String × PRInfo)
  | [] => fm
  | pr :: rest =>
    match pr.user with
    | none => getFirstTimeContributorsGo cm mc fm rest
    | some u =>
      if isNewContributor u.login cm mc then
        let newPRInfo := prInfoOf pr u
        match (fm.find? (fun kv => kv.1 = u.login)) with
        | some kv =>
          -- source comment says "Get only the oldest one", but the
          -- comparison replaces the stored entry by any newer one
          if dateGt newPRInfo.created_at kv.2.created_at then
            getFirstTimeContributorsGo cm mc (setKey fm u.login newPRInfo) rest
          else
            getFirstTimeContributorsGo cm mc fm rest
        | none => getFirstTimeContributorsGo cm mc (fm ++ [(u.login, newPRInfo)]) rest
      else getFirstTimeContributorsGo cm mc fm rest

/-- `ReleaseNotesPreparator.getFirstTimeContributors`.  The
`listContributors` API response is passed in as `contributors`. -/
def getFirstTimeContributors (contributors : List Contributor) (prs : List Issue) :
    List PRInfo :=
  let contributorsMap := contributorsMapOf contributors
  let usersMilestonePRs := getMilestonePRs prs
  (getFirstTimeContributorsGo contributorsMap usersMilestonePRs [] prs).map (fun kv => kv.2)

/-! ### `includeDataFromIssue` and its regex `/(Closes|Fixes)\s#\d+/i` -/

/-- Try to consume pattern `p` case-insensitively at the front of `s`,
returning the actually consumed characters and the remainder. -/
def ciStrip : List Char → List Char → Option (List Char × List Char)
  | [], s => some ([], s)
  | _ :: _, [] => none
  | p :: ps, c :: cs =>
    if lc p == lc c then
      match ciStrip ps cs with
      | some (taken, rest) => some (c :: taken, rest)
      | none => none
    else none

/-- Match `(Closes|Fixes)\s#\d+` (alternatives tried in order, `\d+`
greedy) at the current position of `s`; returns the matched text. -/
def matchPatAt (s : List Char) : Option (List Char) :=
  match (match ciStrip "Closes".toList s with
         | some r => some r
         | none => ciStrip "Fixes".toList s) with
  | none => none
  | some (kw, rest1) =>
    match rest1 with
    | [] => none
    | w :: rest2 =>
      if isWsChar w then
        match rest2 with
        | [] => none
        | h :: rest3 =>
          if h == '#' then
            let ds := rest3.takeWhile isDigitChar
            if ds.isEmpty then none else some (kw ++ [w, '#'] ++ ds)
          else none
      else none

/-- Leftmost match of `/(Closes|Fixes)\s#\d+/i` in `s`, i.e. the value of
`s.match(..)[0]`: positions are tried left to right. -/
def firstMatch : List Char → Option (List Char)
  | [] => none
  | c :: cs =>
    match matchPatAt (c :: cs) with
    | some m => some m
    | none => firstMatch cs

/-- `str.split('#')[1]`: the segment strictly between the first and the
second occurrence of `'#'` (the tail after the first `'#'` when there is
no second one). -/
def splitSecond (s : List Char) : List Char :=
  (((s.dropWhile (fun c => ¬(c == '#'))).drop 1).takeWhile (fun c => ¬(c == '#')))

/-- `ReleaseNotesPreparator.includeDataFromIssue`.  The octokit
`issues.get` call is modelled by the oracle `getIssue`, mapping the issue
number (as the digit string extracted from the match) to the fetched
issue's body when the response carries data. -/
def includeDataFromIssue (getIssue : List Char → Option (List Char)) (pr : Issue) : Issue :=
  match pr.body with
  | none => pr
  | some b =>
    match firstMatch b with
    | none => pr
    | some m =>
      match getIssue (splitSecond m) with
      | some issueBody => { pr with body := some (issueBody ++ b) }
      | none => pr

/-- The `issues.get` request `includeDataFromIssue` performs: `some n`
when it fetches issue number `n` (as a digit string), `none` when it
returns without calling the API. -/
def includeDataFetches (pr : Issue) : Option (List Char) :=
  match pr.body with
  | none => none
  | some b =>
    match firstMatch b with
    | none => none
    | some m => some (splitSecond m)

/-! ### Categorizer (`generate`, title regex and `(test` override) -/

/-- The alternatives of `/^\s*(chore|feat|docs|fix|refactor|test|ci)/i`,
in source order. -/
def prefixAlternatives : List (List Char) :=
  ["chore".toList, "feat".toList, "docs".toList, "fix".toList,
   "refactor".toList, "test".toList, "ci".toList]

/-- Try the alternation at the front of `s`, in order, returning the raw
matched characters (the regex capture `match[1]`). -/
def findAlt : List (List Char) → List Char → Option (List Char)
  | [], _ => none
  | p :: ps, s =>
    if ciStartsWith p s then some (s.take p.length) else findAlt ps s

/-- Per-pull-request categorization step of `ReleaseNotesPreparator.generate`:
skip when the title regex does not match or when the author is missing;
otherwise the lower-cased captured prefix, overridden to `test` when the
title contains `(test` case-insensitively. -/
def assignCategory (pr : Issue) : Option (List Char) :=
  match findAlt prefixAlternatives (pr.title.dropWhile isWsChar) with
  | none => none
  | some captured =>
    match pr.user with
    | none => none
    | some _ =>
      some (if ciContainsSub "(test".toList pr.title then "test".toList
            else lcs captured)

/-! ### Highlight selection (`generate`) -/

/-- The highlight-selection predicate of `generate`, verbatim:
`issue.pull_request && ((issue.title.startsWith('feat') ? true : null) ?? issue.title.startsWith('chore'))`.
The ternary produces `some true` or `none` (null), then `??` coalesces. -/
def highlightCond (issue : Issue) : Bool :=
  issue.pull_request &&
    ((if csStartsWith "feat".toList issue.title then some true else none).getD
      (csStartsWith "chore".toList issue.title))

/-- The selection rule as the specification words it: a pull-request
marker, and a title that starts with `feat` or starts with `chore`. -/
def highlightCondSpec (issue : Issue) : Bool :=
  issue.pull_request &&
    (csStartsWith "feat".toList issue.title || csStartsWith "chore".toList issue.title)

/-! ### `fetchDataFromService` -/

/-- Outcome of evaluating the body-extraction expression
(`JSON.parse((await response.json()).response).prs` for the Ollama
flavor, `JSON.parse(..choices[0].message.content).prs` for the chat
flavor) on a settled response.  It can throw (`JSON.parse` applied to a
non-JSON string, or a broken `choices[0].message` path — handled by the
`try`/`catch`), evaluate to JavaScript `undefined` when the embedded
payload is valid JSON that merely lacks a `prs` key (property access on
an object does not throw), or produce the `prs` array. -/
inductive ParseOutcome where
  | throws : ParseOutcome
  | missingPrs : ParseOutcome
  | prsArray : List HighlightedPR → ParseOutcome
  deriving Repr, DecidableEq

/-- Outcome of the `fetch` call to the language-model service.
`failure` models a network-level rejection (handled by the final
`.catch`); `success status parsed` models a settled HTTP response with
its status and the outcome of the body extraction. -/
inductive FetchResult where
  | failure : FetchResult
  | success : Nat → ParseOutcome → FetchResult
  deriving Repr, DecidableEq

/-- `Response.ok` of the fetch API: status in the 2xx range. -/
def responseOk (status : Nat) : Bool :=
  200 ≤ status && status < 300

/-- `ReleaseNotesPreparator.fetchDataFromService`.  The HTTP service is
the oracle `service`, mapping the posted content blob to the outcome of
the `fetch` call.  A non-ok status logs and returns `[]`; a throwing
extraction is caught by the `try`/`catch` and returns `[]`; a
network-level failure is caught by the final `.catch` and returns `[]`;
a successful extraction returns the `prs` array.  When the extraction
evaluates to `undefined` (valid JSON without a `prs` key) nothing
throws: the `undefined` flows through the `result as HighlightedPR[]`
cast unchanged and the promise resolves with it.  The result type is
therefore `Option (List HighlightedPR)`, with `none` standing for a
promise resolved with `undefined` and `some l` for one resolved with an
actual array. -/
def fetchDataFromService (service : String → FetchResult) (content : String) :
    Option (List HighlightedPR) :=
  match service content with
  | FetchResult.failure => some []
  | FetchResult.success status parsed =>
    if ¬responseOk status then some []
    else
      match parsed with
      | ParseOutcome.throws => some []
      | ParseOutcome.missingPrs => none
      | ParseOutcome.prsArray prs => some prs

/-! ### `getPRsByMilestone` -/

/-- The bot filter applied to the paginated issues:
`issue.pull_request && issue.user && user.type !== 'Bot' && login` not one
of the two known bot accounts. -/
def botFilter (issue : Issue) : Bool :=
  issue.pull_request &&
    (match issue.user with
     | some u =>
       u.utype ≠ "Bot" && u.login ≠ "podman-desktop-bot" && u.login ≠ "step-security-bot"
     | none => false)

/-- The `while (true)` pagination loop: request page after page
(milestone number, `per_page`, page index) until an empty page, with
explicit fuel standing for the number of iterations the loop is allowed
(the source loop has no bound; every terminating run is reproduced by a
large enough fuel). -/
def paginate (pages : Nat → Nat → Nat → List Issue) (mnum : Nat) :
    Nat → Nat → List Issue
  | 0, _ => []
  | fuel + 1, page =>
    match pages mnum 100 page with
    | [] => []
    | issue :: issues => (issue :: issues) ++ paginate pages mnum fuel (page + 1)

/-- `ReleaseNotesPreparator.getPRsByMilestone`.  The `listMilestones`
response is `milestones`; the paginated `listForRepo` responses are the
oracle `pages` (milestone number, per-page size, page index). -/
def getPRsByMilestone (milestones : List MilestoneRec)
    (pages : Nat → Nat → Nat → List Issue) (fuel : Nat)
    (milestoneTitle : String) : Except String (List Issue) :=
  match milestones.find? (fun m => m.title == milestoneTitle) with
  | none =>
    Except.error
      ("Milestone '" ++ milestoneTitle ++ "' was not found in: [" ++
        String.intercalate "," (milestones.map (fun m => m.title)) ++ "]")
  | some m =>
    Except.ok ((paginate pages m.number fuel 1).filter botFilter)

/-! ### Changelog sorting (`generateMD`) -/

/-- `priorityOrder.indexOf(category)`, with the `-1 → Infinity` mapping of
the source comparator rendered as `3`: it exceeds every real index, so all
comparator outcomes are preserved (`Infinity - Infinity` is `NaN`, which
`Array.prototype.sort` treats as `0`, i.e. a tie — exactly like `3 - 3`). -/
def priorityOf (cat : String) : Nat :=
  if cat = "feat" then 0
  else if cat = "fix" then 1
  else if cat = "chore" then 2
  else 3

/-- Stable insertion of one category into an already sorted list:
an element is placed before the first element of priority not smaller than
its own, so earlier elements win ties. -/
def insertByPriority (x : PRCategory) : List PRCategory → List PRCategory
  | [] => [x]
  | b :: bs =>
    if priorityOf x.category ≤ priorityOf b.category then x :: b :: bs
    else b :: insertByPriority x bs

/-- The `changelog.toSorted(..)` call of `generateMD`:
`Array.prototype.toSorted` is a stable sort by the comparator
`priorityA - priorityB`, realized here as a stable insertion sort by
`priorityOf`. -/
def sortChangelog : List PRCategory → List PRCategory
  | [] => []
  | x :: xs => insertByPriority x (sortChangelog xs)

/-! ## Theorems -/

/-- C2: `isNewContributor` returns true exactly when the username's
milestone-scoped count equals its lifetime count and both are strictly
positive (absent usernames count as 0, so both-zero and unequal cases are
false). -/
theorem isNewContributor_iff (username : String)
    (contributorsMap milestoneCommits : List (String × Nat)) :
    isNewContributor username contributorsMap milestoneCommits = true ↔
      (lookupD 0 contributorsMap username = lookupD 0 milestoneCommits username ∧
       0 < lookupD 0 contributorsMap username ∧
       0 < lookupD 0 milestoneCommits username) := by
  unfold isNewContributor
  constructor
  · intro h
    simp only [Bool.and_eq_true, beq_iff_eq, decide_eq_true_eq] at h
    omega
  · intro h
    simp only [Bool.and_eq_true, beq_iff_eq, decide_eq_true_eq]
    omega

/-- A ternary producing `true`/`null` followed by `??` collapses to a
disjunction. -/
theorem ternaryCoalesce (a b : Bool) :
    (if a = true then some true else none).getD b = (a || b) := by
  cases a <;> simp

/-- C9: the highlight-selection predicate of `generate` (ternary to
`true`/`null`, coalesced with the `chore` check) is extensionally the
plain disjunction "has a pull-request marker and the title starts with
`feat` or starts with `chore`". -/
theorem highlightCond_eq_spec (issue : Issue) :
    highlightCond issue = highlightCondSpec issue := by
  unfold highlightCond highlightCondSpec
  rw [ternaryCoalesce]

/-- C5 counterexample: a 2xx response whose body extraction finds valid
JSON that merely lacks the `prs` key makes `fetchDataFromService`
resolve with `undefined` (modelled `none`) — not with the empty list the
claim requires for every shape failure. -/
theorem fetchDataFromService_missing_prs_cex :
    fetchDataFromService (fun _ => FetchResult.success 200 ParseOutcome.missingPrs) "PR1: x"
      = none
    ∧ (none : Option (List HighlightedPR)) ≠ some [] := by
  decide

/-- C5 (amended): `fetchDataFromService` returns the parsed `prs` array
on a 2xx response whose body extraction yields the array; it returns an
empty list, without throwing, on a non-2xx status, on an extraction that
throws (body not valid JSON, or a broken `choices[0].message` path), and
on a network-level failure; but on a 2xx response whose payload is valid
JSON merely lacking the `prs` key, the extraction yields `undefined` and
the function resolves with that `undefined` value, not an empty list. -/
theorem fetchDataFromService_spec (service : String → FetchResult) (content : String) :
    (∀ status prs,
      service content = FetchResult.success status (ParseOutcome.prsArray prs) →
      responseOk status = true →
      fetchDataFromService service content = some prs)
    ∧ (∀ status parsed, service content = FetchResult.success status parsed →
      responseOk status = false →
      fetchDataFromService service content = some [])
    ∧ (∀ status, service content = FetchResult.success status ParseOutcome.throws →
      fetchDataFromService service content = some [])
    ∧ (service content = FetchResult.failure →
      fetchDataFromService service content = some [])
    ∧ (∀ status, service content = FetchResult.success status ParseOutcome.missingPrs →
      responseOk status = true →
      fetchDataFromService service content = none) := by
  refine ⟨?_, ?_, ?_, ?_, ?_⟩
  · intro status prs hs h
    simp [fetchDataFromService, hs, h]
  · intro status parsed hs h
    simp [fetchDataFromService, hs, h]
  · intro status hs
    cases h : responseOk status <;> simp [fetchDataFromService, hs, h]
  · intro hs
    simp [fetchDataFromService, hs]
  · intro status hs h
    simp [fetchDataFromService, hs, h]

/-- Witness for C5 at concrete inputs: status 200 with a parsed array
returns it; status 500 returns an empty list; status 200 with valid JSON
lacking `prs` resolves with `undefined`. -/
theorem fetchDataFromService_spec_witness :
    fetchDataFromService
        (fun _ => FetchResult.success 200 (ParseOutcome.prsArray [⟨"t", "s", "l"⟩])) "PR1: x"
      = some [⟨"t", "s", "l"⟩]
    ∧ fetchDataFromService
        (fun _ => FetchResult.success 500 (ParseOutcome.prsArray [⟨"t", "s", "l"⟩])) "PR1: x"
      = some []
    ∧ fetchDataFromService
        (fun _ => FetchResult.success 200 ParseOutcome.missingPrs) "PR1: y"
      = none :=
  ⟨(fetchDataFromService_spec
      (fun _ => FetchResult.success 200 (ParseOutcome.prsArray [⟨"t", "s", "l"⟩]))
      "PR1: x").1 200 [⟨"t", "s", "l"⟩] rfl (by decide),
   (fetchDataFromService_spec
      (fun _ => FetchResult.success 500 (ParseOutcome.prsArray [⟨"t", "s", "l"⟩]))
      "PR1: x").2.1 500 (ParseOutcome.prsArray [⟨"t", "s", "l"⟩]) rfl (by decide),
   (fetchDataFromService_spec
      (fun _ => FetchResult.success 200 ParseOutcome.missingPrs)
      "PR1: y").2.2.2.2 200 rfl (by decide)⟩

/-- C3: when the body contains a `(Closes|Fixes)\s#digits` reference
(case-insensitively, first match honored) and the referenced issue is
fetched, `includeDataFromIssue` replaces the body by the issue body
immediately followed by the original body and changes nothing else; with
no body or no match it returns the pull request unchanged and performs no
issue fetch. -/
theorem includeDataFromIssue_spec (getIssue : List Char → Option (List Char)) (pr : Issue) :
    (∀ b m issueBody, pr.body = some b → firstMatch b = some m →
      getIssue (splitSecond m) = some issueBody →
      includeDataFromIssue getIssue pr = { pr with body := some (issueBody ++ b) } ∧
      includeDataFetches pr = some (splitSecond m))
    ∧ (pr.body = none →
      includeDataFromIssue getIssue pr = pr ∧ includeDataFetches pr = none)
    ∧ (∀ b, pr.body = some b → firstMatch b = none →
      includeDataFromIssue getIssue pr = pr ∧ includeDataFetches pr = none) := by
  refine ⟨?_, ?_, ?_⟩
  · intro b m issueBody hb hm hg
    unfold includeDataFromIssue includeDataFetches
    rw [hb]
    simp only [hm, hg]
    exact ⟨by trivial, by trivial⟩
  · intro hb
    unfold includeDataFromIssue includeDataFetches
    rw [hb]
    exact ⟨by trivial, by trivial⟩
  · intro b hb hm
    unfold includeDataFromIssue includeDataFetches
    rw [hb]
    simp only [hm]
    exact ⟨by trivial, by trivial⟩

/-- Witness for C3 at concrete inputs: the repository's own test case
(`Closes #123. PR body.` with issue body `Issue body.`) on the match
path, and a body without any reference on the no-match path. -/
theorem includeDataFromIssue_spec_witness :
    (includeDataFromIssue
        (fun n => if n = "123".toList then some "Issue body.".toList else none)
        { title := "feat: X".toList, user := some ⟨"userX", "urlX", "User"⟩, number := 401,
          html_url := "htmlX", created_at := none,
          body := some "Closes #123. PR body.".toList, pull_request := true }
      = { title := "feat: X".toList, user := some ⟨"userX", "urlX", "User"⟩, number := 401,
          html_url := "htmlX", created_at := none,
          body := some "Issue body.Closes #123. PR body.".toList, pull_request := true })
    ∧ (includeDataFromIssue
        (fun n => if n = "123".toList then some "Issue body.".toList else none)
        { title := "feat: X".toList, user := some ⟨"userX", "urlX", "User"⟩, number := 401,
          html_url := "htmlX", created_at := none,
          body := some "ABCD PR body.".toList, pull_request := true }
      = { title := "feat: X".toList, user := some ⟨"userX", "urlX", "User"⟩, number := 401,
          html_url := "htmlX", created_at := none,
          body := some "ABCD PR body.".toList, pull_request := true }) := by
  constructor
  · have h := (includeDataFromIssue_spec
      (fun n => if n = "123".toList then some "Issue body.".toList else none)
      { title := "feat: X".toList, user := some ⟨"userX", "urlX", "User"⟩, number := 401,
        html_url := "htmlX", created_at := none,
        body := some "Closes #123. PR body.".toList, pull_request := true }).1
      "Closes #123. PR body.".toList "Closes #123".toList "Issue body.".toList
      rfl (by decide) (by decide)
    exact h.1
  · have h := (includeDataFromIssue_spec
      (fun n => if n = "123".toList then some "Issue body.".toList else none)
      { title := "feat: X".toList, user := some ⟨"userX", "urlX", "User"⟩, number := 401,
        html_url := "htmlX", created_at := none,
        body := some "ABCD PR body.".toList, pull_request := true }).2.2
      "ABCD PR body.".toList rfl (by decide)
    exact h.1

/-- C1 (code behaviour at the claim's failing input): with two
first-time-qualifying pull requests by the same username — number 202
created at time 100 and number 201 created at time 200 —
`getFirstTimeContributors` retains the pull request with the *latest*
creation timestamp (number 201), not the earliest, contradicting the
claim and the source's own `Get only the oldest one` comment (the
repository's unit test asserts this latest-kept behaviour). -/
theorem getFirstTimeContributors_keeps_latest :
    (getFirstTimeContributors [⟨some "newUser", 2⟩]
      [{ title := "fix: Older PR".toList, user := some ⟨"newUser", "urlNew", "User"⟩,
         number := 202, html_url := "htmlNew", created_at := some 100,
         body := none, pull_request := true },
       { title := "feat: First PR".toList, user := some ⟨"newUser", "urlNew", "User"⟩,
         number := 201, html_url := "htmlNew", created_at := some 200,
         body := none, pull_request := true }]).map (fun i => (i.number, i.created_at))
    = [(201, some 200)] := by
  decide

/-! ### Lemmas about `bump` and the counting loop (for C8) -/

theorem sumVals_bump (m : List (String × Nat)) (k : String) :
    sumVals (bump m k) = sumVals m + 1 := by
  induction m with
  | nil => simp [bump, sumVals]
  | cons kv rest ih =>
    obtain ⟨k', v⟩ := kv
    by_cases h : k' = k
    · simp [bump, h, sumVals]
      omega
    · simp [bump, h, sumVals] at ih ⊢
      omega

theorem lookupD_bump_self (m : List (String × Nat)) (k : String) :
    lookupD 0 (bump m k) k = lookupD 0 m k + 1 := by
  induction m with
  | nil => simp [bump, lookupD]
  | cons kv rest ih =>
    obtain ⟨k', v⟩ := kv
    by_cases h : k' = k
    · simp [bump, h, lookupD]
    · simp [bump, h, lookupD, List.find?] at ih ⊢
      exact ih

theorem lookupD_bump_other (m : List (String × Nat)) (k u : String) (h : u ≠ k) :
    lookupD 0 (bump m k) u = lookupD 0 m u := by
  induction m with
  | nil =>
    have hku : ¬(k = u) := fun e => h e.symm
    simp [bump, lookupD, List.find?, hku]
  | cons kv rest ih =>
    obtain ⟨k', v⟩ := kv
    by_cases hk : k' = k
    · subst hk
      have hku : ¬(k' = u) := fun e => h e.symm
      simp [bump, lookupD, List.find?, hku]
    · by_cases hu : k' = u
      · subst hu
        simp [bump, lookupD, List.find?, hk]
      · simp [bump, hk, lookupD, List.find?, hu] at ih ⊢
        exact ih

theorem bump_pos (m : List (String × Nat)) (k : String)
    (h : ∀ kv ∈ m, 0 < kv.2) : ∀ kv ∈ bump m k, 0 < kv.2 := by
  induction m with
  | nil =>
    intro kv hkv
    simp [bump] at hkv
    simp [hkv]
  | cons hd rest ih =>
    obtain ⟨k', v⟩ := hd
    by_cases hk : k' = k
    · intro kv hkv
      simp [bump, hk] at hkv
      rcases hkv with rfl | hkv
      · simp
      · exact h kv (by simp [hkv])
    · intro kv hkv
      simp [bump, hk] at hkv
      rcases hkv with rfl | hkv
      · exact h (k', v) (by simp)
      · exact ih (fun kv' hkv' => h kv' (by simp [hkv'])) kv hkv

/-- The per-issue qualification test of `getMilestonePRs`: a pull-request
marker and a truthy author login. -/
def qualifiesForCount (issue : Issue) : Bool :=
  issue.pull_request && hasTruthyAuthor issue

theorem getMilestonePRsGo_sum (prs : List Issue) :
    ∀ m, sumVals (getMilestonePRsGo m prs)
      = sumVals m + (prs.filter qualifiesForCount).length := by
  induction prs with
  | nil => intro m; simp [getMilestonePRsGo]
  | cons issue rest ih =>
    intro m
    by_cases h : issue.pull_request && hasTruthyAuthor issue
    · simp [getMilestonePRsGo, h, ih, sumVals_bump, List.filter_cons, qualifiesForCount]
      omega
    · simp [getMilestonePRsGo, h, ih, List.filter_cons, qualifiesForCount]

theorem getMilestonePRsGo_lookup (prs : List Issue) (u : String) :
    ∀ m, lookupD 0 (getMilestonePRsGo m prs) u
      = lookupD 0 m u
        + (prs.filter (fun i => qualifiesForCount i && authorLogin i == u)).length := by
  induction prs with
  | nil => intro m; simp [getMilestonePRsGo]
  | cons issue rest ih =>
    intro m
    by_cases h : issue.pull_request && hasTruthyAuthor issue
    · by_cases ha : authorLogin issue = u
      · subst ha
        simp [getMilestonePRsGo, h, ih, lookupD_bump_self, List.filter_cons,
          qualifiesForCount]
        omega
      · have ha' : u ≠ authorLogin issue := fun e => ha e.symm
        simp [getMilestonePRsGo, h, ih, lookupD_bump_other _ _ _ ha',
          List.filter_cons, qualifiesForCount, ha]
    · simp [getMilestonePRsGo, h, ih, List.filter_cons, qualifiesForCount]

theorem getMilestonePRsGo_pos (prs : List Issue) :
    ∀ m, (∀ kv ∈ m, 0 < kv.2) → ∀ kv ∈ getMilestonePRsGo m prs, 0 < kv.2 := by
  induction prs with
  | nil => intro m hm; simpa [getMilestonePRsGo] using hm
  | cons issue rest ih =>
    intro m hm
    by_cases h : issue.pull_request && hasTruthyAuthor issue
    · simp only [getMilestonePRsGo, h, if_pos]
      exact ih _ (bump_pos m _ hm)
    · simp only [getMilestonePRsGo, h, if_neg]
      exact ih _ hm

/-- C8: the per-username counts of `getMilestonePRs` sum to the number of
entries carrying a pull-request marker and a defined author; each
username maps to exactly the number of such entries it authored; and no
stored count is zero. -/
theorem getMilestonePRs_spec (prs : List Issue) :
    sumVals (getMilestonePRs prs) = (prs.filter qualifiesForCount).length
    ∧ (∀ u : String,
        lookupD 0 (getMilestonePRs prs) u
          = (prs.filter (fun i => qualifiesForCount i && authorLogin i == u)).length)
    ∧ (∀ kv ∈ getMilestonePRs prs, 0 < kv.2) := by
  refine ⟨?_, ?_, ?_⟩
  · simpa [sumVals] using getMilestonePRsGo_sum prs []
  · intro u
    simpa [lookupD] using getMilestonePRsGo_lookup prs u []
  · exact getMilestonePRsGo_pos prs [] (by simp)

/-- Witness for C8 at a concrete input (the repository's own test data:
two pull requests by `userA`): the counts sum to 2, `userA` maps to 2,
and the single stored count is positive. -/
theorem getMilestonePRs_spec_witness :
    sumVals (getMilestonePRs
      [{ title := "feat: A1".toList, user := some ⟨"userA", "urlA", "User"⟩, number := 301,
         html_url := "htmlA", created_at := some 1, body := none, pull_request := true },
       { title := "fix: A2".toList, user := some ⟨"userA", "urlA", "User"⟩, number := 302,
         html_url := "htmlA", created_at := some 2, body := none, pull_request := true }]) = 2
    ∧ (0 : Nat) < ("userA", 2).2 := by
  have h := (getMilestonePRs_spec
    [{ title := "feat: A1".toList, user := some ⟨"userA", "urlA", "User"⟩, number := 301,
       html_url := "htmlA", created_at := some 1, body := none, pull_request := true },
     { title := "fix: A2".toList, user := some ⟨"userA", "urlA", "User"⟩, number := 302,
       html_url := "htmlA", created_at := some 2, body := none, pull_request := true }])
  constructor
  · rw [h.1]
    decide
  · exact h.2.2 ("userA", 2) (by decide)

/-! ### Lemmas about the changelog sort (for C7) -/

theorem insertByPriority_front (x : PRCategory) {B : List PRCategory}
    (hB : ∀ b ∈ B, priorityOf x.category ≤ priorityOf b.category) :
    insertByPriority x B = x :: B := by
  cases B with
  | nil => rfl
  | cons b bs =>
    unfold insertByPriority
    rw [if_pos (hB b (by simp))]

theorem insertByPriority_skip (x : PRCategory) {A r : List PRCategory}
    (hA : ∀ b ∈ A, priorityOf b.category < priorityOf x.category) :
    insertByPriority x (A ++ r) = A ++ insertByPriority x r := by
  induction A with
  | nil => simp
  | cons a as ih =>
    have ha := hA a (by simp)
    simp only [List.cons_append]
    conv_lhs => rw [insertByPriority]
    rw [if_neg (by omega)]
    rw [ih (fun b hb => hA b (by simp [hb]))]

theorem prio_mem_feat (l : List PRCategory) (b : PRCategory)
    (h : b ∈ l.filter (fun c => c.category == "feat")) : priorityOf b.category = 0 := by
  rw [List.mem_filter] at h
  have := h.2
  simp only [beq_iff_eq] at this
  simp [priorityOf, this]

theorem prio_mem_fix (l : List PRCategory) (b : PRCategory)
    (h : b ∈ l.filter (fun c => c.category == "fix")) : priorityOf b.category = 1 := by
  rw [List.mem_filter] at h
  have := h.2
  simp only [beq_iff_eq] at this
  simp [priorityOf, this]

theorem prio_mem_chore (l : List PRCategory) (b : PRCategory)
    (h : b ∈ l.filter (fun c => c.category == "chore")) : priorityOf b.category = 2 := by
  rw [List.mem_filter] at h
  have := h.2
  simp only [beq_iff_eq] at this
  simp [priorityOf, this]

theorem prio_mem_other (l : List PRCategory) (b : PRCategory)
    (h : b ∈ l.filter (fun c =>
      ¬(c.category == "feat" || c.category == "fix" || c.category == "chore"))) :
    priorityOf b.category = 3 := by
  rw [List.mem_filter] at h
  have h2 := h.2
  simp only [Bool.or_eq_true, beq_iff_eq, decide_eq_true_eq, not_or] at h2
  obtain ⟨⟨h2f, h2x⟩, h2c⟩ := h2
  simp [priorityOf, h2f, h2x, h2c]

/-- C7: the `toSorted` call of `generateMD` places the `feat` category
group first, then `fix`, then `chore`, and all remaining categories after
those three in their original relative order. -/
theorem sortChangelog_spec (changelog : List PRCategory) :
    sortChangelog changelog =
      changelog.filter (fun c => c.category == "feat")
      ++ changelog.filter (fun c => c.category == "fix")
      ++ changelog.filter (fun c => c.category == "chore")
      ++ changelog.filter (fun c =>
           ¬(c.category == "feat" || c.category == "fix" || c.category == "chore")) := by
  induction changelog with
  | nil => rfl
  | cons x xs ih =>
    have hmF : ∀ b ∈ xs.filter (fun c => c.category == "feat"),
        priorityOf b.category = 0 := fun b hb => prio_mem_feat xs b hb
    have hmX : ∀ b ∈ xs.filter (fun c => c.category == "fix"),
        priorityOf b.category = 1 := fun b hb => prio_mem_fix xs b hb
    have hmC : ∀ b ∈ xs.filter (fun c => c.category == "chore"),
        priorityOf b.category = 2 := fun b hb => prio_mem_chore xs b hb
    have hmO : ∀ b ∈ xs.filter (fun c =>
          ¬(c.category == "feat" || c.category == "fix" || c.category == "chore")),
        priorityOf b.category = 3 := fun b hb => prio_mem_other xs b hb
    unfold sortChangelog
    rw [ih]
    simp only [List.append_assoc]
    by_cases hf : x.category = "feat"
    · have h0 : priorityOf x.category = 0 := by simp [priorityOf, hf]
      rw [insertByPriority_front x (fun b _ => by rw [h0]; exact Nat.zero_le _)]
      simp [List.filter_cons, hf]
    · by_cases hx : x.category = "fix"
      · have h1 : priorityOf x.category = 1 := by simp [priorityOf, hx, hf]
        rw [insertByPriority_skip x
          (fun b hb => by rw [hmF b hb, h1]; omega)]
        rw [insertByPriority_front x (fun b hb => by
          rw [h1]
          rcases List.mem_append.mp hb with h | h'
          · rw [hmX b h]
          · rcases List.mem_append.mp h' with h | h
            · rw [hmC b h]; omega
            · rw [hmO b h]; omega)]
        simp [List.filter_cons, hx, hf]
      · by_cases hc : x.category = "chore"
        · have h2 : priorityOf x.category = 2 := by simp [priorityOf, hc, hf, hx]
          rw [insertByPriority_skip x
            (fun b hb => by rw [hmF b hb, h2]; omega)]
          rw [insertByPriority_skip x
            (fun b hb => by rw [hmX b hb, h2]; omega)]
          rw [insertByPriority_front x (fun b hb => by
            rw [h2]
            rcases List.mem_append.mp hb with h | h
            · rw [hmC b h]
            · rw [hmO b h]; omega)]
          simp [List.filter_cons, hc, hf, hx]
        · have h3 : priorityOf x.category = 3 := by simp [priorityOf, hf, hx, hc]
          rw [insertByPriority_skip x
            (fun b hb => by rw [hmF b hb, h3]; omega)]
          rw [insertByPriority_skip x
            (fun b hb => by rw [hmX b hb, h3]; omega)]
          rw [insertByPriority_skip x
            (fun b hb => by rw [hmC b hb, h3]; omega)]
          rw [insertByPriority_front x (fun b hb => by rw [h3, hmO b hb])]
          simp [List.filter_cons, hf, hx, hc]

/-! ### Lemmas about the categorizer (for C4 and C10) -/

theorem findAlt_isSome (ps : List (List Char)) (s : List Char) :
    (findAlt ps s).isSome = ps.any (fun p => ciStartsWith p s) := by
  induction ps with
  | nil => rfl
  | cons p rest ih =>
    unfold findAlt
    by_cases h : ciStartsWith p s <;> simp [h, ih]

/-- C4: `generate` assigns a category to a pull request exactly when its
title, after optional leading whitespace, begins case-insensitively with
one of chore, feat, docs, fix, refactor, test, ci and the pull request
has an author; whenever the title additionally contains `(test`
(case-insensitively) the assigned category is `test`; in particular the
title `chore(tests): fix flaky suite` is categorized as `test`. -/
theorem assignCategory_spec :
    (∀ pr : Issue,
      (assignCategory pr).isSome =
        (prefixAlternatives.any
            (fun p => ciStartsWith p (pr.title.dropWhile isWsChar))
          && pr.user.isSome))
    ∧ (∀ (pr : Issue) (cat : List Char), assignCategory pr = some cat →
        ciContainsSub "(test".toList pr.title = true → cat = "test".toList)
    ∧ assignCategory
        { title := "chore(tests): fix flaky suite".toList,
          user := some ⟨"u", "l", "User"⟩, number := 1, html_url := "h",
          created_at := none, body := none, pull_request := true }
      = some "test".toList := by
  refine ⟨?_, ?_, by decide⟩
  · intro pr
    unfold assignCategory
    rw [← findAlt_isSome]
    cases h : findAlt prefixAlternatives (pr.title.dropWhile isWsChar) with
    | none => simp
    | some captured =>
      cases hu : pr.user with
      | none => simp
      | some u => simp
  · intro pr cat h hcont
    unfold assignCategory at h
    cases hfa : findAlt prefixAlternatives (pr.title.dropWhile isWsChar) with
    | none => rw [hfa] at h; exact absurd h (by simp)
    | some captured =>
      rw [hfa] at h
      cases hu : pr.user with
      | none => rw [hu] at h; exact absurd h (by simp)
      | some u =>
        rw [hu] at h
        simp only [hcont, if_pos, Option.some.injEq] at h
        exact h.symm

/-- Witness for C4: the override conjunct applied at the repository's own
test title `chore(tests): fix flaky suite`. -/
theorem assignCategory_spec_witness :
    ("test".toList : List Char) = "test".toList :=
  assignCategory_spec.2.1
    { title := "chore(tests): fix flaky suite".toList,
      user := some ⟨"u", "l", "User"⟩, number := 1, html_url := "h",
      created_at := none, body := none, pull_request := true }
    "test".toList (by decide) (by decide)

/-! ### Lemmas about pagination (for C6) -/

/-- The pagination loop collects pages `start`, `start+1`, … (100 entries
requested per page) and stops at the first empty page `k`; with enough
fuel the result is exactly the concatenation of pages `start … k-1`. -/
theorem paginate_until_empty (pages : Nat → Nat → Nat → List Issue) (mnum : Nat) :
    ∀ (fuel start k : Nat), start ≤ k → k - start ≤ fuel →
      (∀ j, start ≤ j → j < k → pages mnum 100 j ≠ []) →
      pages mnum 100 k = [] →
      paginate pages mnum fuel start
        = (List.range' start (k - start)).flatMap (pages mnum 100) := by
  intro fuel
  induction fuel with
  | zero =>
    intro start k h1 h2 _ _
    have hk : k = start := by omega
    subst hk
    simp [paginate]
  | succ fuel ih =>
    intro start k h1 h2 hne hk
    by_cases hs : start = k
    · subst hs
      unfold paginate
      rw [hk]
      simp
    · have hlt : start < k := by omega
      have hstart := hne start (le_refl start) hlt
      unfold paginate
      cases hp : pages mnum 100 start with
      | nil => exact absurd hp hstart
      | cons issue issues =>
        have hrec := ih (start + 1) k (by omega) (by omega)
          (fun j hj1 hj2 => hne j (by omega) hj2) hk
        rw [hrec]
        have hn : k - start = (k - (start + 1)) + 1 := by omega
        rw [hn, List.range'_succ, List.flatMap_cons, hp]

/-- C6: `getPRsByMilestone` throws an error whose message contains the
requested milestone title and the joined list of available titles when no
milestone title matches exactly; when an exact match exists it does not
throw at this step but paginates closed issues 100 per page until an
empty page (then filters out bot-authored entries). -/
theorem getPRsByMilestone_spec (milestones : List MilestoneRec)
    (pages : Nat → Nat → Nat → List Issue) (fuel : Nat) (t : String) :
    ((∀ m ∈ milestones, m.title ≠ t) →
      ∃ msg, getPRsByMilestone milestones pages fuel t = Except.error msg
        ∧ t.toList <:+: msg.toList
        ∧ (String.intercalate "," (milestones.map (fun m => m.title))).toList
            <:+: msg.toList)
    ∧ (∀ m, milestones.find? (fun m' => m'.title == t) = some m →
        ∀ k, 1 ≤ k → k - 1 ≤ fuel →
          (∀ j, 1 ≤ j → j < k → pages m.number 100 j ≠ []) →
          pages m.number 100 k = [] →
          getPRsByMilestone milestones pages fuel t =
            Except.ok
              (((List.range' 1 (k - 1)).flatMap (pages m.number 100)).filter
                botFilter)) := by
  constructor
  · intro hnone
    have hfind : milestones.find? (fun m' => m'.title == t) = none := by
      rw [List.find?_eq_none]
      intro m hm
      simp [hnone m hm]
    refine ⟨"Milestone '" ++ t ++ "' was not found in: [" ++
      String.intercalate "," (milestones.map (fun m => m.title)) ++ "]", ?_, ?_, ?_⟩
    · unfold getPRsByMilestone
      rw [hfind]
    · exact ⟨"Milestone '".toList,
        ("' was not found in: [" ++
          String.intercalate "," (milestones.map (fun m => m.title)) ++ "]").toList,
        by simp [String.toList]⟩
    · exact ⟨("Milestone '" ++ t ++ "' was not found in: [").toList, "]".toList,
        by simp [String.toList]⟩
  · intro m hfind k hk1 hkfuel hne hk
    simp only [getPRsByMilestone, hfind]
    rw [paginate_until_empty pages m.number fuel 1 k hk1 hkfuel hne hk]

/-- Witness for C6 at concrete inputs: looking up `non-existent` among
milestones titled `1.0.0` produces an error message mentioning both; an
exact lookup of `1.0.0` succeeds, collecting one non-empty page. -/
theorem getPRsByMilestone_spec_witness :
    (∃ msg, getPRsByMilestone [⟨"1.0.0", 1⟩] (fun _ _ _ => []) 5 "non-existent"
        = Except.error msg
      ∧ "non-existent".toList <:+: msg.toList
      ∧ (String.intercalate "," (["1.0.0"] : List String)).toList <:+: msg.toList)
    ∧ getPRsByMilestone [⟨"1.0.0", 1⟩]
        (fun _ _ page =>
          if page = 1 then
            [{ title := "feat: a".toList, user := some ⟨"userA", "uA", "User"⟩,
               number := 101, html_url := "hA", created_at := some 1,
               body := none, pull_request := true }]
          else []) 5 "1.0.0"
      = Except.ok
          [{ title := "feat: a".toList, user := some ⟨"userA", "uA", "User"⟩,
             number := 101, html_url := "hA", created_at := some 1,
             body := none, pull_request := true }] := by
  constructor
  · have h := (getPRsByMilestone_spec [⟨"1.0.0", 1⟩] (fun _ _ _ => []) 5 "non-existent").1
      (by intro m hm; simp at hm; simp [hm])
    simpa using h
  · have h := (getPRsByMilestone_spec [⟨"1.0.0", 1⟩]
      (fun _ _ page =>
        if page = 1 then
          [{ title := "feat: a".toList, user := some ⟨"userA", "uA", "User"⟩,
             number := 101, html_url := "hA", created_at := some 1,
             body := none, pull_request := true }]
        else []) 5 "1.0.0").2
      ⟨"1.0.0", 1⟩ (by decide) 2 (by decide) (by decide)
      (by intro j hj1 hj2; have hj : j = 1 := (by omega); subst hj; decide)
      (by decide)
    simpa using h

/-! ### Case-sensitivity lemmas (for C10) -/

theorem ciStartsWith_of_lcs_eq (p : List Char) :
    ∀ (w rest : List Char), lcs w = lcs p → ciStartsWith p (w ++ rest) = true := by
  induction p with
  | nil => intro w rest _; rfl
  | cons p0 ps ih =>
    intro w rest h
    cases w with
    | nil => simp [lcs] at h
    | cons w0 wt =>
      simp only [lcs, List.map_cons, List.cons.injEq] at h
      simp only [List.cons_append, ciStartsWith, Bool.and_eq_true, beq_iff_eq]
      exact ⟨h.1.symm, ih wt rest h.2⟩

theorem ciStartsWith_head (p0 c : Char) (ps cs : List Char)
    (h : ciStartsWith (p0 :: ps) (c :: cs) = true) : lc p0 = lc c := by
  simp only [ciStartsWith, Bool.and_eq_true, beq_iff_eq] at h
  exact h.1

theorem csStartsWith_head (p0 c : Char) (ps cs : List Char)
    (h : csStartsWith (p0 :: ps) (c :: cs) = true) : p0 = c := by
  simp only [csStartsWith, Bool.and_eq_true, beq_iff_eq] at h
  exact h.1

theorem ws_lc_ne (c : Char) (h : isWsChar c = true) : lc c ≠ 'f' ∧ lc c ≠ 'c' := by
  simp only [isWsChar, Bool.or_eq_true, beq_iff_eq] at h
  rcases h with ((((h | h) | h) | h) | h) | h <;> subst h <;> exact ⟨by decide, by decide⟩

theorem csStartsWith_take (p : List Char) :
    ∀ s : List Char, csStartsWith p s = true → s.take p.length = p := by
  induction p with
  | nil => intro s _; simp
  | cons p0 ps ih =>
    intro s h
    cases s with
    | nil => simp [csStartsWith] at h
    | cons c cs =>
      simp only [csStartsWith, Bool.and_eq_true, beq_iff_eq] at h
      simp [List.take_cons, h.1.symm, ih cs h.2]

/-- C10 counterexample: the pull request titled
`Feat(tests): fix flaky suite` begins with the mixed-case variant `Feat`
of `feat`, and the highlight selector indeed excludes it, but the
categorizer files it under `test` — not under the lowercased variant
`feat` — so the claim as stated fails at this input. -/
theorem categorizeVsHighlight_cex :
    ("Feat(tests): fix flaky suite".toList
        = "Feat".toList ++ "(tests): fix flaky suite".toList)
    ∧ lcs "Feat".toList = "feat".toList
    ∧ "Feat".toList ≠ "feat".toList
    ∧ assignCategory
        { title := "Feat(tests): fix flaky suite".toList,
          user := some ⟨"u", "l", "User"⟩, number := 1, html_url := "h",
          created_at := none, body := none, pull_request := true }
      = some "test".toList
    ∧ ¬ assignCategory
        { title := "Feat(tests): fix flaky suite".toList,
          user := some ⟨"u", "l", "User"⟩, number := 1, html_url := "h",
          created_at := none, body := none, pull_request := true }
      = some "feat".toList
    ∧ highlightCond
        { title := "Feat(tests): fix flaky suite".toList,
          user := some ⟨"u", "l", "User"⟩, number := 1, html_url := "h",
          created_at := none, body := none, pull_request := true }
      = false := by
  decide

/-- C10 (amended): for every pull request with an author whose title
begins with an upper- or mixed-case variant of `feat` or `chore`, the
case-insensitive categorizer assigns it a changelog category — `test`
when the title contains `(test` case-insensitively, otherwise the
lowercased variant — while the case-sensitive `startsWith` of the
highlight selector excludes it from the highlight-generation pool. -/
theorem categorizeVsHighlight (w rest : List Char) (pr : Issue)
    (ht : pr.title = w ++ rest) (hu : pr.user.isSome = true)
    (hw : (lcs w = "feat".toList ∧ w ≠ "feat".toList)
        ∨ (lcs w = "chore".toList ∧ w ≠ "chore".toList)) :
    assignCategory pr
      = some (if ciContainsSub "(test".toList pr.title = true then "test".toList
              else lcs w)
    ∧ highlightCond pr = false := by
  obtain ⟨u, hu'⟩ := Option.isSome_iff_exists.mp hu
  rcases hw with ⟨hl, hne⟩ | ⟨hl, hne⟩
  · -- mixed-case variant of `feat`
    have hlen : w.length = 4 := by
      have := congrArg List.length hl
      simpa [lcs] using this
    cases w with
    | nil => simp [lcs] at hl
    | cons w0 wt =>
      have hw0 : lc w0 = 'f' := by
        simp only [lcs, List.map_cons] at hl
        exact (List.cons.injEq _ _ _ _ ▸ hl).1
      have hws : isWsChar w0 = false := by
        cases hcase : isWsChar w0
        · rfl
        · exact absurd hw0 (ws_lc_ne w0 hcase).1
      have hdw : pr.title.dropWhile isWsChar = w0 :: (wt ++ rest) := by
        rw [ht]
        simp [List.cons_append, List.dropWhile_cons, hws]
      have hchore : ciStartsWith "chore".toList (w0 :: (wt ++ rest)) = false := by
        cases hcs : ciStartsWith "chore".toList (w0 :: (wt ++ rest))
        · rfl
        · exfalso
          have := ciStartsWith_head 'c' w0 _ _ hcs
          rw [hw0] at this
          exact absurd this (by decide)
      have hfeat : ciStartsWith "feat".toList (w0 :: (wt ++ rest)) = true := by
        have := ciStartsWith_of_lcs_eq "feat".toList (w0 :: wt) rest (by rw [hl]; decide)
        simpa [List.cons_append] using this
      have htake : List.take 4 (w0 :: (wt ++ rest)) = w0 :: wt := by
        have h2 : ((w0 :: wt) ++ rest).take 4 = w0 :: wt := List.take_left' hlen
        simpa [List.cons_append] using h2
      have hfind : findAlt prefixAlternatives (pr.title.dropWhile isWsChar)
          = some (w0 :: wt) := by
        rw [hdw]
        simp only [prefixAlternatives, findAlt]
        rw [if_neg (by rw [hchore]; decide), if_pos hfeat,
          show ("feat".toList.length) = 4 from rfl, htake]
      constructor
      · simp only [assignCategory, hfind, hu']
      · have hf : csStartsWith "feat".toList pr.title = false := by
          cases hcs : csStartsWith "feat".toList pr.title
          · rfl
          · exfalso
            rw [ht] at hcs
            have := csStartsWith_take "feat".toList _ hcs
            rw [show ("feat".toList.length) = 4 from rfl, List.take_left' hlen] at this
            exact hne this
        have hc : csStartsWith "chore".toList pr.title = false := by
          cases hcs : csStartsWith "chore".toList pr.title
          · rfl
          · exfalso
            rw [ht, List.cons_append] at hcs
            have := csStartsWith_head 'c' w0 _ _ hcs
            rw [← this] at hw0
            exact absurd hw0 (by decide)
        unfold highlightCond
        rw [hf, hc]
        simp
  · -- mixed-case variant of `chore`
    have hlen : w.length = 5 := by
      have := congrArg List.length hl
      simpa [lcs] using this
    cases w with
    | nil => simp [lcs] at hl
    | cons w0 wt =>
      have hw0 : lc w0 = 'c' := by
        simp only [lcs, List.map_cons] at hl
        exact (List.cons.injEq _ _ _ _ ▸ hl).1
      have hws : isWsChar w0 = false := by
        cases hcase : isWsChar w0
        · rfl
        · exact absurd hw0 (ws_lc_ne w0 hcase).2
      have hdw : pr.title.dropWhile isWsChar = w0 :: (wt ++ rest) := by
        rw [ht]
        simp [List.cons_append, List.dropWhile_cons, hws]
      have hchore : ciStartsWith "chore".toList (w0 :: (wt ++ rest)) = true := by
        have := ciStartsWith_of_lcs_eq "chore".toList (w0 :: wt) rest (by rw [hl]; decide)
        simpa [List.cons_append] using this
      have htake : List.take 5 (w0 :: (wt ++ rest)) = w0 :: wt := by
        have h2 : ((w0 :: wt) ++ rest).take 5 = w0 :: wt := List.take_left' hlen
        simpa [List.cons_append] using h2
      have hfind : findAlt prefixAlternatives (pr.title.dropWhile isWsChar)
          = some (w0 :: wt) := by
        rw [hdw]
        simp only [prefixAlternatives, findAlt]
        rw [if_pos hchore, show ("chore".toList.length) = 5 from rfl, htake]
      constructor
      · simp only [assignCategory, hfind, hu']
      · have hf : csStartsWith "feat".toList pr.title = false := by
          cases hcs : csStartsWith "feat".toList pr.title
          · rfl
          · exfalso
            rw [ht, List.cons_append] at hcs
            have := csStartsWith_head 'f' w0 _ _ hcs
            rw [← this] at hw0
            exact absurd hw0 (by decide)
        have hc : csStartsWith "chore".toList pr.title = false := by
          cases hcs : csStartsWith "chore".toList pr.title
          · rfl
          · exfalso
            rw [ht] at hcs
            have := csStartsWith_take "chore".toList _ hcs
            rw [show ("chore".toList.length) = 5 from rfl, List.take_left' hlen] at this
            exact hne this
        unfold highlightCond
        rw [hf, hc]
        simp

/-- Witness for the amended C10: the title `Feat: x` is categorized as
`feat` by the case-insensitive regex while the case-sensitive highlight
selection excludes it. -/
theorem categorizeVsHighlight_witness :
    assignCategory
        { title := "Feat: x".toList, user := some ⟨"u", "l", "User"⟩, number := 1,
          html_url := "h", created_at := none, body := none, pull_request := true }
      = some "feat".toList
    ∧ highlightCond
        { title := "Feat: x".toList, user := some ⟨"u", "l", "User"⟩, number := 1,
          html_url := "h", created_at := none, body := none, pull_request := true }
      = false := by
  have h := categorizeVsHighlight "Feat".toList ": x".toList
    { title := "Feat: x".toList, user := some ⟨"u", "l", "User"⟩, number := 1,
      html_url := "h", created_at := none, body := none, pull_request := true }
    (by decide) (by decide) (Or.inl ⟨by decide, by decide⟩)
  refine ⟨?_, h.2⟩
  rw [h.1]
  decide

end ReleaseNotes
